import Mathlib

/-!
Verification of the arxiv-tweets-summary pipeline.

This file gives a shallow embedding, in Lean 4, of the pure core of the
repository (src/docker/deeplcache.py and src/docker/main.py) and proves
properties of it.  External services (the DeepL translator, the Twitter
API, arXiv, GCS, gzip and JSON text transport) are modelled as parameters
or as structured values; everything the repository itself computes is
translated function by function.
-/

/-! ## DeepLCache (src/docker/deeplcache.py)

The cache is a Python dict mapping a key (an arXiv id) to an entry
`[trans_texts, trans_ts]`: a list of translated segments together with an
ISO-8601 timestamp string.  We model the dict as an association list in
insertion order (the order a Python dict preserves); `dict_get` is
`dict.get` and `dict_set` is `dict[key] = value` (update in place if the
key is present, append otherwise). -/

/-- Entry stored in the DeepL cache: `[trans_texts, trans_ts]` — the list of
translated segments and the timestamp string. -/
def DLEntry : Type := List String × String

instance : DecidableEq DLEntry := by unfold DLEntry; infer_instance

/-- Cache state of `DeepLCache`: a Python dict from keys to entries, in
insertion order. -/
def DLCache : Type := List (String × DLEntry)

instance : DecidableEq DLCache := by unfold DLCache; infer_instance

/-- Python `dict.get(key, None)`. -/
def dict_get {α : Type} : List (String × α) → String → Option α
  | [], _ => none
  | (k1, v1) :: c, key => if key = k1 then some v1 else dict_get c key

/-- Python `dict[key] = value`: update the entry in place when the key is
present, append it otherwise. -/
def dict_set {α : Type} : List (String × α) → String → α → List (String × α)
  | [], k, v => [(k, v)]
  | (k1, v1) :: c, k, v => if k1 = k then (k, v) :: c else (k1, v1) :: dict_set c k v

/-- DeepLCache.translate_text.  The external translator is the parameter
`translator` (text × target_lang to translated segments) and `now` is the
timestamp `datetime.now(utc).isoformat()` of this call.  Returns the entry
returned to the caller, the cache after the call, and whether the external
translation service was invoked. -/
def translate_text (translator : List String → String → List String) (now : String)
    (cache : DLCache) (text : List String) (target_lang : String) (key : String) :
    DLEntry × DLCache × Bool :=
  match dict_get cache key with
  | some tcached => (tcached, cache, false)
  | none =>
      ((translator text target_lang, now), dict_set cache key (translator text target_lang, now), true)

/-- DeepLCache.clear_cache: `self.cache = {}`.  It takes no threshold
argument (the `TODO: specify datetime` comment in the source notwithstanding)
and unconditionally empties the cache. -/
def clear_cache (_cache : DLCache) : DLCache := []

/-- One translation request: text segments, target language, cache key. -/
def DLRequest : Type := List String × String × String

/-- Number of invocations of the external translation service with cache
key `k` over a sequence of `translate_text` calls starting from `cache`. -/
def service_calls (translator : List String → String → List String) (now : String)
    (cache : DLCache) : List DLRequest → String → Nat
  | [], _ => 0
  | (text, lang, key) :: reqs, k =>
      (if key = k ∧ (translate_text translator now cache text lang key).2.2 then 1 else 0)
      + service_calls translator now (translate_text translator now cache text lang key).2.1 reqs k

theorem dict_get_dict_set {α : Type} (c : List (String × α)) (k : String) (v : α)
    (k2 : String) :
    dict_get (dict_set c k v) k2 = if k2 = k then some v else dict_get c k2 := by
  induction c with
  | nil => simp [dict_set, dict_get]
  | cons hd tl ih =>
      obtain ⟨k1, v1⟩ := hd
      by_cases h1 : k1 = k
      · subst h1
        by_cases h2 : k2 = k1
        · simp [dict_set, dict_get, h2]
        · simp [dict_set, dict_get, h2]
      · by_cases h2 : k2 = k1
        · have hk : ¬ k2 = k := by rw [h2]; exact h1
          simp [dict_set, dict_get, h1, h2, hk]
        · simp [dict_set, dict_get, h1, h2, ih]

theorem dict_get_isSome_after_call (translator : List String → String → List String)
    (now : String) (cache : DLCache) (text : List String) (lang key : String) (k : String)
    (h : (dict_get cache k).isSome ∨ k = key) :
    (dict_get (translate_text translator now cache text lang key).2.1 k).isSome := by
  cases hg : dict_get cache key with
  | some e =>
      rcases h with h | h
      · simpa [translate_text, hg] using h
      · subst h
        simp [translate_text, hg]
  | none =>
      rcases h with h | h
      · simp only [translate_text, hg, dict_get_dict_set]
        split
        · simp
        · simpa using h
      · subst h
        simp [translate_text, hg, dict_get_dict_set]

theorem service_calls_of_cached (translator : List String → String → List String)
    (now : String) (cache : DLCache) (reqs : List DLRequest) (k : String)
    (h : (dict_get cache k).isSome) :
    service_calls translator now cache reqs k = 0 := by
  induction reqs generalizing cache with
  | nil => rfl
  | cons r reqs ih =>
      obtain ⟨text, lang, key⟩ := r
      have hcall : (dict_get (translate_text translator now cache text lang key).2.1 k).isSome :=
        dict_get_isSome_after_call translator now cache text lang key k (Or.inl h)
      show (if key = k ∧ (translate_text translator now cache text lang key).2.2 then 1 else 0)
        + service_calls translator now (translate_text translator now cache text lang key).2.1 reqs k = 0
      rw [ih _ hcall]
      by_cases hk : key = k
      · subst hk
        have hfalse : (translate_text translator now cache text lang key).2.2 = false := by
          cases hg : dict_get cache key with
          | some e => simp [translate_text, hg]
          | none => rw [hg] at h; simp at h
        simp [hfalse]
      · simp [hk]

theorem service_calls_le_one (translator : List String → String → List String)
    (now : String) (cache : DLCache) (reqs : List DLRequest) (k : String) :
    service_calls translator now cache reqs k ≤ 1 := by
  induction reqs generalizing cache with
  | nil => exact Nat.zero_le 1
  | cons r reqs ih =>
      obtain ⟨text, lang, key⟩ := r
      show (if key = k ∧ (translate_text translator now cache text lang key).2.2 then 1 else 0)
        + service_calls translator now (translate_text translator now cache text lang key).2.1 reqs k ≤ 1
      by_cases hk : key = k
      · subst hk
        have hcall : (dict_get (translate_text translator now cache text lang key).2.1 key).isSome :=
          dict_get_isSome_after_call translator now cache text lang key key (Or.inr rfl)
        rw [service_calls_of_cached translator now _ reqs key hcall]
        split <;> simp
      · simp only [hk, false_and, if_false, Nat.zero_add]
        exact ih _

/-- Claim C1: for every cache state and every key already present in the
cache, translate_text returns the stored entry unchanged, leaves the cache
unchanged, and does not invoke the external translation service; and over
any sequence of calls the service is invoked at most once per key. -/
theorem C1_translate_text_cache_hit (translator : List String → String → List String)
    (now : String) (cache : DLCache) (text : List String) (target_lang key : String)
    (e : DLEntry) (h : dict_get cache key = some e) :
    translate_text translator now cache text target_lang key = (e, cache, false)
    ∧ ∀ (c0 : DLCache) (reqs : List DLRequest) (k : String),
        service_calls translator now c0 reqs k ≤ 1 := by
  constructor
  · simp [translate_text, h]
  · intro c0 reqs k
    exact service_calls_le_one translator now c0 reqs k

/-- Witness for C1 at a concrete cache containing the key. -/
theorem C1_translate_text_cache_hit_witness :
    translate_text (fun t _ => t) "ts" [("2301.01234", (["x"], "t0"))] ["s"] "JA" "2301.01234"
      = ((["x"], "t0"), [("2301.01234", (["x"], "t0"))], false) :=
  (C1_translate_text_cache_hit (fun t _ => t) "ts" [("2301.01234", (["x"], "t0"))]
    ["s"] "JA" "2301.01234" (["x"], "t0") (by decide)).1

/-- Claim C5 (code evaluation): clear_cache as implemented takes no
threshold and empties the cache unconditionally, so an entry whose
timestamp is current — newer than any threshold — is removed all the same.
The caller in main.py line 501 passes `expire_timedelta=timedelta(days=30)`,
an argument `clear_cache` does not accept. -/
theorem C5_clear_cache_drops_fresh_entry :
    dict_get (clear_cache [("2301.01234", (["x"], "2026-10-12T00:00:00+00:00"))])
      "2301.01234" = none := rfl

/-! ## Serialization round trip (DeepLCache.save / DeepLCache.load)

`save` writes `json.dump(self.cache)` through a gzip text stream and `load`
reads it back with `json.load`.  The gzip/text transport is the Python
standard library and is modelled as the identity on the structured JSON
value written; what the repository contributes is the shape of that value:
an object mapping each key to `[trans_texts, trans_ts]`. -/

/-- Structured JSON value, as produced by Python json.dump / json.load. -/
inductive Json where
  | null : Json
  | bool (b : Bool) : Json
  | num (n : Int) : Json
  | str (s : String) : Json
  | arr (items : List Json) : Json
  | obj (members : List (String × Json)) : Json

/-- Mapping a fallible reader over a list, failing if any element fails
(the Option analogue of json.load reading every member). -/
def opt_map_list {α β : Type} (f : α → Option β) : List α → Option (List β)
  | [] => some []
  | x :: xs =>
      match f x, opt_map_list f xs with
      | some y, some ys => some (y :: ys)
      | _, _ => none

/-- DeepLCache.save: the JSON value `json.dump(self.cache, f)` writes. -/
def save (c : DLCache) : Json :=
  Json.obj (c.map fun kv => (kv.1, Json.arr [Json.arr (kv.2.1.map Json.str), Json.str kv.2.2]))

/-- Reading a JSON string. -/
def str_of_json : Json → Option String
  | Json.str s => some s
  | _ => none

/-- Reading a JSON array of strings. -/
def strings_of_json : Json → Option (List String)
  | Json.arr items => opt_map_list str_of_json items
  | _ => none

/-- Reading one cache entry `[trans_texts, trans_ts]` back from JSON. -/
def entry_of_json : Json → Option DLEntry
  | Json.arr [texts, ts] =>
      match strings_of_json texts, str_of_json ts with
      | some l, some s => some ((l, s) : DLEntry)
      | _, _ => none
  | _ => none

/-- Reading the whole cache mapping back from JSON. -/
def cache_of_json : Json → Option DLCache
  | Json.obj members =>
      opt_map_list (fun kv => (entry_of_json kv.2).map fun e => (kv.1, e)) members
  | _ => none

/-- DeepLCache.load: the cache `json.load(f)` reconstructs from the saved
value. -/
def load (j : Json) : Option DLCache := cache_of_json j

theorem strings_of_json_round (l : List String) :
    strings_of_json (Json.arr (l.map Json.str)) = some l := by
  induction l with
  | nil => rfl
  | cons s l ih =>
      simp only [strings_of_json, List.map_cons, opt_map_list]
      simp only [strings_of_json] at ih
      simp [ih, str_of_json]

theorem entry_of_json_round (e : DLEntry) :
    entry_of_json (Json.arr [Json.arr (e.1.map Json.str), Json.str e.2]) = some e := by
  simp [entry_of_json, strings_of_json_round, str_of_json]

/-- Claim C6: save followed by load reproduces the mapping exactly — the
same keys in the same order, each with the same ordered list of translated
segments and the same timestamp string — for every non-empty cache. -/
theorem C6_save_load_round_trip (c : DLCache) (h : c ≠ []) :
    load (save c) = some c := by
  clear h
  simp only [load, save, cache_of_json]
  induction c with
  | nil => rfl
  | cons kv c ih =>
      obtain ⟨k, e⟩ := kv
      simp only [List.map_cons, opt_map_list, entry_of_json_round]
      simp [ih]

/-- Witness for C6 at a concrete one-entry cache. -/
theorem C6_save_load_round_trip_witness :
    load (save [("2301.01234", (["a", "b"], "2022-01-01T00:00:00+00:00"))])
      = some [("2301.01234", (["a", "b"], "2022-01-01T00:00:00+00:00"))] :=
  C6_save_load_round_trip [("2301.01234", (["a", "b"], "2022-01-01T00:00:00+00:00"))]
    (by decide)

/-! ## Page merging (search_recent_tweets, src/docker/main.py lines 105-130)

Each response page carries a meta dict.  Keys may be absent (`'newest_id'
in response.meta`), which we model with Option.  `search_recent_tweets`
folds the per-page metas into one merged meta starting from
`{'newest_id': None, 'oldest_id': None, 'result_count': 0, 'next_token': None}`. -/

/-- Meta dict of one response page (also the type of the merged meta). -/
structure PageMeta where
  result_count : Nat
  newest_id : Option String
  oldest_id : Option String
  next_token : Option String

/-- Initial merged meta in search_recent_tweets. -/
def init_meta : PageMeta := ⟨0, none, none, none⟩

/-- One iteration of the merge loop in search_recent_tweets (lines 123-126):
result_count accumulates, next_token is taken from the current page,
newest_id is taken from the current page only while still None, oldest_id is
taken from the current page whenever the page has one. -/
def merge_meta (meta : PageMeta) (response : PageMeta) : PageMeta where
  result_count := meta.result_count + response.result_count
  next_token := response.next_token
  newest_id :=
    if response.newest_id.isSome ∧ meta.newest_id = none then response.newest_id
    else meta.newest_id
  oldest_id := if response.oldest_id.isSome then response.oldest_id else meta.oldest_id

/-- Merged meta returned by search_recent_tweets over a sequence of pages. -/
def search_recent_tweets_meta (pages : List PageMeta) : PageMeta :=
  pages.foldl merge_meta init_meta

theorem merge_meta_result_count_foldl (l : List PageMeta) :
    ∀ m0 : PageMeta, (l.foldl merge_meta m0).result_count
      = m0.result_count + (l.map PageMeta.result_count).sum := by
  induction l with
  | nil => intro m0; simp
  | cons x t ih =>
      intro m0
      simp only [List.foldl_cons, List.map_cons, List.sum_cons, ih]
      simp [merge_meta]
      omega

theorem merge_meta_newest_foldl (l : List PageMeta) :
    ∀ m0 : PageMeta, m0.newest_id.isSome → (l.foldl merge_meta m0).newest_id = m0.newest_id := by
  induction l with
  | nil => intro m0 _; rfl
  | cons x t ih =>
      intro m0 h
      have hkeep : (merge_meta m0 x).newest_id = m0.newest_id := by
        simp only [merge_meta]
        split
        · rename_i hc
          rw [hc.2] at h
          simp at h
        · rfl
      rw [List.foldl_cons, ih _ (by rw [hkeep]; exact h), hkeep]

theorem merge_meta_oldest_foldl (l : List PageMeta) :
    ∀ (m0 plast : PageMeta), l.getLast? = some plast → plast.oldest_id.isSome →
      (l.foldl merge_meta m0).oldest_id = plast.oldest_id := by
  induction l with
  | nil => intro m0 plast h; simp at h
  | cons x t ih =>
      intro m0 plast hlast hsome
      cases t with
      | nil =>
          simp only [List.getLast?_singleton, Option.some_inj] at hlast
          subst hlast
          simp only [List.foldl_cons, List.foldl_nil, merge_meta]
          rw [if_pos hsome]
      | cons y t2 =>
          have : (x :: y :: t2).getLast? = (y :: t2).getLast? := List.getLast?_cons_cons
          rw [this] at hlast
          rw [List.foldl_cons]
          exact ih _ plast hlast hsome

/-- Claim C3: over any non-empty sequence of merged pages, the merged meta
has result_count equal to the sum of the per-page result_counts, newest_id
equal to page 1's newest_id, and oldest_id equal to the last page's
oldest_id (provided page 1 reports a newest_id and the last page reports an
oldest_id, as every Twitter result page does). -/
theorem C3_search_recent_tweets_meta_merge (p plast : PageMeta) (rest : List PageMeta)
    (hlast : (p :: rest).getLast? = some plast)
    (hnew : p.newest_id.isSome) (hold : plast.oldest_id.isSome) :
    (search_recent_tweets_meta (p :: rest)).result_count
        = ((p :: rest).map PageMeta.result_count).sum
    ∧ (search_recent_tweets_meta (p :: rest)).newest_id = p.newest_id
    ∧ (search_recent_tweets_meta (p :: rest)).oldest_id = plast.oldest_id := by
  refine ⟨?_, ?_, ?_⟩
  · rw [search_recent_tweets_meta, merge_meta_result_count_foldl]
    simp [init_meta]
  · rw [search_recent_tweets_meta, List.foldl_cons]
    have hstep : (merge_meta init_meta p).newest_id = p.newest_id := by
      simp [merge_meta, init_meta, hnew]
    rw [merge_meta_newest_foldl _ _ (by rw [hstep]; exact hnew), hstep]
  · exact merge_meta_oldest_foldl _ _ plast hlast hold

/-- Witness for C3 on two concrete pages. -/
theorem C3_search_recent_tweets_meta_merge_witness :
    (search_recent_tweets_meta
        [⟨100, some "90", some "11", some "tok1"⟩, ⟨7, some "10", some "3", none⟩]).result_count
      = ([(100 : Nat), 7]).sum
    ∧ (search_recent_tweets_meta
        [⟨100, some "90", some "11", some "tok1"⟩, ⟨7, some "10", some "3", none⟩]).newest_id
      = some "90"
    ∧ (search_recent_tweets_meta
        [⟨100, some "90", some "11", some "tok1"⟩, ⟨7, some "10", some "3", none⟩]).oldest_id
      = some "3" :=
  C3_search_recent_tweets_meta_merge ⟨100, some "90", some "11", some "tok1"⟩
    ⟨7, some "10", some "3", none⟩ [⟨7, some "10", some "3", none⟩] (by rfl) (by rfl) (by rfl)

/-! ## Chunked metadata fetch (get_arxiv_contents, src/docker/main.py lines 205-219)

The id list is consumed in chunks of `chunk_size` over `1 + len(id_list) //
chunk_size` iterations; each non-empty chunk is looked up remotely inside a
try/except, a failing chunk is logged and skipped, and the results of the
successful chunks accumulate in order.  The remote call is the parameter
`fetch`; an exception is an `Except.error`. -/

/-- Loop body of get_arxiv_contents: `i` counts the remaining iterations of
`range(1 + len(id_list) // chunk_size)` and `cdr` is the unconsumed tail of
the id list.  A failing chunk contributes nothing. -/
def get_arxiv_contents_loop {ι ρ : Type} (fetch : List ι → Except String (List ρ))
    (chunk_size : Nat) : Nat → List ι → List ρ
  | 0, _ => []
  | i + 1, cdr =>
      (if 0 < (cdr.take chunk_size).length then
        match fetch (cdr.take chunk_size) with
        | Except.ok r => r
        | Except.error _ => []
      else [])
      ++ get_arxiv_contents_loop fetch chunk_size i (cdr.drop chunk_size)

/-- get_arxiv_contents: run the chunk loop over the whole id list.  (The
final list comprehension of the source converts each raw result with
arxiv_result_to_dict, which is modelled separately; here the per-chunk
results stay abstract.) -/
def get_arxiv_contents {ι ρ : Type} (fetch : List ι → Except String (List ρ))
    (id_list : List ι) (chunk_size : Nat) : List ρ :=
  get_arxiv_contents_loop fetch chunk_size (1 + id_list.length / chunk_size) id_list

/-- Specification-side chunk decomposition with the same iteration count as
the source loop. -/
def chunks_loop {ι : Type} (chunk_size : Nat) : Nat → List ι → List (List ι)
  | 0, _ => []
  | i + 1, cdr =>
      (if 0 < (cdr.take chunk_size).length then [cdr.take chunk_size] else [])
      ++ chunks_loop chunk_size i (cdr.drop chunk_size)

/-- Chunks of the id list in source order. -/
def id_chunks {ι : Type} (id_list : List ι) (chunk_size : Nat) : List (List ι) :=
  chunks_loop chunk_size (1 + id_list.length / chunk_size) id_list

theorem get_arxiv_contents_loop_eq_chunks {ι ρ : Type}
    (fetch : List ι → Except String (List ρ)) (chunk_size : Nat) :
    ∀ (n : Nat) (l : List ι),
      get_arxiv_contents_loop fetch chunk_size n l
        = ((chunks_loop chunk_size n l).map fun c =>
            match fetch c with
            | Except.ok r => r
            | Except.error _ => []).flatten := by
  intro n
  induction n with
  | zero => intro l; rfl
  | succ i ih =>
      intro l
      simp only [get_arxiv_contents_loop, chunks_loop]
      by_cases hc : 0 < (l.take chunk_size).length
      · rw [if_pos hc, if_pos hc]
        simp [ih]
      · rw [if_neg hc, if_neg hc]
        simp [ih]

theorem chunks_loop_flatten {ι : Type} (chunk_size : Nat) (hcs : 0 < chunk_size) :
    ∀ (n : Nat) (l : List ι), l.length ≤ n * chunk_size →
      (chunks_loop chunk_size n l).flatten = l := by
  intro n
  induction n with
  | zero =>
      intro l hl
      simp only [Nat.zero_mul, Nat.le_zero, List.length_eq_zero] at hl
      subst hl
      rfl
  | succ i ih =>
      intro l hl
      cases l with
      | nil =>
          have h0 : ¬ 0 < (List.take chunk_size ([] : List ι)).length := by simp
          simp only [chunks_loop, if_neg h0, List.nil_append, List.drop_nil]
          exact ih [] (by simp)
      | cons x t =>
          have hmul : (i + 1) * chunk_size = i * chunk_size + chunk_size :=
            Nat.succ_mul i chunk_size
          have hpos : 0 < ((x :: t).take chunk_size).length := by
            simp [List.length_take]
            omega
          simp only [chunks_loop, if_pos hpos, List.singleton_append, List.flatten_cons]
          have hdrop : (List.drop chunk_size (x :: t)).length ≤ i * chunk_size := by
            rw [List.length_drop]
            have h3 : (x :: t).length - chunk_size ≤ (i + 1) * chunk_size - chunk_size :=
              Nat.sub_le_sub_right hl chunk_size
            rwa [hmul, Nat.add_sub_cancel] at h3
          rw [ih _ hdrop]
          exact List.take_append_drop chunk_size (x :: t)

theorem length_le_iterations_mul (len chunk_size : Nat) (hcs : 0 < chunk_size) :
    len ≤ (1 + len / chunk_size) * chunk_size := by
  have h1 : chunk_size * (len / chunk_size) + len % chunk_size = len :=
    Nat.div_add_mod len chunk_size
  have h2 : len % chunk_size < chunk_size := Nat.mod_lt len hcs
  calc len = chunk_size * (len / chunk_size) + len % chunk_size := h1.symm
    _ ≤ chunk_size * (len / chunk_size) + chunk_size :=
        Nat.add_le_add_left (Nat.le_of_lt h2) _
    _ = (1 + len / chunk_size) * chunk_size := by ring

/-- Claim C8: with a positive chunk size, get_arxiv_contents equals the
concatenation, in order, of the per-chunk fetch results where a chunk whose
fetch raised contributes nothing — so one failing chunk omits only its own
identifiers and every other chunk is still processed; moreover the chunks
partition the id list exactly. -/
theorem C8_get_arxiv_contents_skips_failed_chunks {ι ρ : Type}
    (fetch : List ι → Except String (List ρ)) (id_list : List ι) (chunk_size : Nat)
    (hcs : 0 < chunk_size) :
    get_arxiv_contents fetch id_list chunk_size
      = ((id_chunks id_list chunk_size).map fun c =>
          match fetch c with
          | Except.ok r => r
          | Except.error _ => []).flatten
    ∧ (id_chunks id_list chunk_size).flatten = id_list := by
  constructor
  · exact get_arxiv_contents_loop_eq_chunks fetch chunk_size _ id_list
  · exact chunks_loop_flatten chunk_size hcs _ id_list
      (length_le_iterations_mul id_list.length chunk_size hcs)

/-- Witness for C8: three ids in chunks of two, where the first chunk fails
and the second succeeds. -/
theorem C8_get_arxiv_contents_skips_failed_chunks_witness :
    get_arxiv_contents
        (fun c => if c = ["a", "b"] then Except.error "boom" else Except.ok c)
        ["a", "b", "c"] 2
      = ((id_chunks ["a", "b", "c"] 2).map fun c =>
          match (fun c => if c = ["a", "b"] then Except.error "boom" else Except.ok c) c with
          | Except.ok r => r
          | Except.error _ => []).flatten
    ∧ (id_chunks ["a", "b", "c"] 2).flatten = ["a", "b", "c"] :=
  C8_get_arxiv_contents_skips_failed_chunks
    (fun c => if c = ["a", "b"] then Except.error "boom" else Except.ok c)
    ["a", "b", "c"] 2 (by decide)

/-! ## ARXIV_URL_PATTERN (src/docker/main.py line 167)

The pattern is
`^https?://arxiv\.org/(abs|pdf)/([0-9]{4}\.[0-9]{4,6})(v[0-9]+)?(\.pdf)?$`.
It is implemented below as a deterministic character-list matcher.  At every
choice point of the regex, deterministic greedy matching agrees with
backtracking semantics: after `https?` the next literal is `:`; the
alternatives `abs` and `pdf` exclude each other; each bounded or unbounded
digit run is followed by a non-digit (`.`, `v`, or the end), so a shorter
run than the greedy one always leaves a digit that nothing can consume; and
each optional group, if present in the input but rejected, leaves a
remainder no later alternative can consume. -/

/-- Character class [0-9]. -/
def is_ascii_digit (c : Char) : Bool := decide ('0' ≤ c) && decide (c ≤ '9')

/-- Match object for ARXIV_URL_PATTERN: the four capture groups.  Optional
groups are None when unmatched, as in Python. -/
structure ArxivMatch where
  g1 : String
  g2 : String
  g3 : Option String
  g4 : Option String
deriving DecidableEq

/-- Consume a literal from the front of the input, returning the rest. -/
def eat_lit : List Char → List Char → Option (List Char)
  | [], cs => some cs
  | _ :: _, [] => none
  | p :: ps, c :: cs => if c = p then eat_lit ps cs else none

/-- Full-anchored match of ARXIV_URL_PATTERN against a character list. -/
def match_arxiv_chars (cs : List Char) : Option ArxivMatch := do
  let r1 ← eat_lit "http".toList cs
  let r2 := match r1 with
    | 's' :: t => t
    | _ => r1
  let r3 ← eat_lit "://arxiv.org/".toList r2
  let (g1, r4) ← match eat_lit "abs".toList r3 with
    | some r => some (("abs" : String), r)
    | none =>
        match eat_lit "pdf".toList r3 with
        | some r => some (("pdf" : String), r)
        | none => none
  let r5 ← eat_lit "/".toList r4
  let (d1, r6) := r5.span is_ascii_digit
  if d1.length = 4 then
    match r6 with
    | '.' :: r7 =>
        let (d2, r8) := r7.span is_ascii_digit
        if 4 ≤ d2.length ∧ d2.length ≤ 6 then
          let (g3, r9) : Option String × List Char :=
            match r8 with
            | 'v' :: t =>
                match t.span is_ascii_digit with
                | ([], _) => (none, r8)
                | (vd, rv) => (some (String.mk ('v' :: vd)), rv)
            | _ => (none, r8)
          let (g4, r10) : Option String × List Char :=
            match eat_lit ".pdf".toList r9 with
            | some r => (some ".pdf", r)
            | none => (none, r9)
          if r10.isEmpty then
            some ⟨g1, String.mk (d1 ++ '.' :: d2), g3, g4⟩
          else none
        else none
    | _ => none
  else none

/-- re.match of ARXIV_URL_PATTERN on a string (the pattern is anchored at
both ends, so re.match is a full match). -/
def arxiv_url_match (s : String) : Option ArxivMatch := match_arxiv_chars s.toList

example : arxiv_url_match "https://arxiv.org/abs/2301.01234"
    = some ⟨"abs", "2301.01234", none, none⟩ := by rfl

example : arxiv_url_match "https://arxiv.org/pdf/2301.01234v2.pdf"
    = some ⟨"pdf", "2301.01234", some "v2", some ".pdf"⟩ := by rfl

example : arxiv_url_match "https://arxiv.org/abs/abc" = none := by rfl

example : arxiv_url_match "http://arxiv.org/abs/2301.012345v11" 
    = some ⟨"abs", "2301.012345", some "v11", none⟩ := by rfl

example : arxiv_url_match "https://arxiv.org/abs/2301.01234x" = none := by rfl

/-! ## get_arxiv_stats (src/docker/main.py lines 169-179)

Inputs are the url sub-field table (one row per URL item, keyed by the
owning tweet id), the tweets table, and the deduplicated users table
(modelled by its author_id column, the only part the merge consults).
Pandas scalars in an object column are a string, NaN (missing field) or
None (JSON null); the code also compares such a scalar with the number 0,
so the scalar type carries an integer constructor as well. -/

/-- Scalar in a pandas object column. -/
inductive PyVal where
  | vNaN : PyVal
  | vNone : PyVal
  | vStr (s : String) : PyVal
  | vInt (n : Int) : PyVal
deriving DecidableEq

/-- Python `x != 0` on such a scalar: NaN, None and every string differ
from 0 (in particular `float('nan') != 0` is True). -/
def py_ne_zero : PyVal → Bool
  | PyVal.vInt n => decide (n ≠ 0)
  | _ => true

/-- One row of the url sub-field table: owning tweet id, expanded_url,
unwound_url. -/
structure UrlRow where
  id : String
  expanded_url : PyVal
  unwound_url : PyVal
deriving DecidableEq

/-- One row of the tweets table (the numeric public-metrics columns the
aggregation sums, plus the join keys). -/
structure TweetRow where
  id : String
  author_id : String
  like_count : Nat
  retweet_count : Nat
  quote_count : Nat
  reply_count : Nat
deriving DecidableEq

/-- Line 170: `x[1] if x[1] != 0 else x[0]` — the row's unwound_url unless
it equals the number 0, else the expanded_url. -/
def effective_url (row : UrlRow) : PyVal :=
  if py_ne_zero row.unwound_url then row.unwound_url else row.expanded_url

/-- Line 171, `.str.extract(ARXIV_URL_PATTERN)[1]`: capture group 2 of the
pattern on a string scalar, NaN (here None) otherwise; `.dropna()` later
discards the None rows. -/
def extract_arxiv_id : PyVal → Option String
  | PyVal.vStr s => (arxiv_url_match s).map ArxivMatch.g2
  | _ => none

/-- Helper get_unique_list of search_recent_tweets (lines 107-109), which is
also the semantics of `.drop_duplicates()`: keep the first occurrence of
each element.  `seen` is the accumulator list of the source. -/
def get_unique_list_loop {α : Type} [DecidableEq α] (seen : List α) : List α → List α
  | [] => []
  | x :: xs =>
      if x ∈ seen then get_unique_list_loop seen xs
      else x :: get_unique_list_loop (x :: seen) xs

/-- Deduplication keeping first occurrences (get_unique_list, and
`.drop_duplicates()` on line 171). -/
def get_unique_list {α : Type} [DecidableEq α] (seq : List α) : List α :=
  get_unique_list_loop [] seq

/-- Line 171: the (tweet id, arxiv_id) pairs — effective URL matched against
the pattern, NaN rows dropped (`dropna`), duplicates dropped
(`drop_duplicates`). -/
def arxiv_ids_df (urls_df : List UrlRow) : List (String × String) :=
  get_unique_list (urls_df.filterMap fun row =>
    (extract_arxiv_id (effective_url row)).map fun a => (row.id, a))

/-- Line 172, inner merge `pd.merge(tweets_df, users_df, on='author_id')`:
keeps each tweet once per occurrence of its author in the users table (the
users table is deduplicated upstream by get_unique_list). -/
def tweets_users_df (tweets_df : List TweetRow) (users_df : List String) : List TweetRow :=
  tweets_df.flatMap fun t => (users_df.filter fun u => u = t.author_id).map fun _ => t

/-- Line 172, outer merge `pd.merge(arxiv_ids_df, ..., on='id')`: one row
(arxiv_id, tweet) per pair and matching tweet, in left order. -/
def arxiv_ids_group_rows (tweets_df : List TweetRow) (users_df : List String)
    (urls_df : List UrlRow) : List (String × TweetRow) :=
  (arxiv_ids_df urls_df).flatMap fun p =>
    ((tweets_users_df tweets_df users_df).filter fun t => t.id = p.1).map fun t => (p.2, t)

/-- One row of the aggregated arxiv_stats table. -/
structure StatRow where
  arxiv_id : String
  like_count : Nat
  retweet_count : Nat
  quote_count : Nat
  reply_count : Nat
  tweet_count : Nat
deriving DecidableEq

/-- Lines 173-175: per group, the sums of the numeric counters
(`.sum(numeric_only=True)`) and the row count (`['id'].count()`, renamed
tweet_count). -/
def agg_row (rows : List (String × TweetRow)) (a : String) : StatRow :=
  let g := (rows.filter fun r => r.1 = a).map fun r => r.2
  { arxiv_id := a
    like_count := (g.map TweetRow.like_count).sum
    retweet_count := (g.map TweetRow.retweet_count).sum
    quote_count := (g.map TweetRow.quote_count).sum
    reply_count := (g.map TweetRow.reply_count).sum
    tweet_count := g.length }

/-- Sort key of line 175: `by=['like_count', 'retweet_count', 'quote_count',
'reply_count', 'tweet_count']`. -/
def stat_key (r : StatRow) : Nat × Nat × Nat × Nat × Nat :=
  (r.like_count, r.retweet_count, r.quote_count, r.reply_count, r.tweet_count)

/-- Lexicographic comparison of two sort keys. -/
def lex5_le : Nat × Nat × Nat × Nat × Nat → Nat × Nat × Nat × Nat × Nat → Bool
  | (a1, a2, a3, a4, a5), (b1, b2, b3, b4, b5) =>
      if a1 ≠ b1 then decide (a1 < b1)
      else if a2 ≠ b2 then decide (a2 < b2)
      else if a3 ≠ b3 then decide (a3 < b3)
      else if a4 ≠ b4 then decide (a4 < b4)
      else decide (a5 ≤ b5)

/-- Row order produced by `sort_values(by=[...], ascending=False)`: `a`
precedes `b` when `a`'s key is lexicographically at least `b`'s. -/
def stat_ge (a b : StatRow) : Bool := lex5_le (stat_key b) (stat_key a)

/-- Insertion of a row into a descending-sorted list. -/
def insert_desc (r : StatRow) : List StatRow → List StatRow
  | [] => [r]
  | x :: xs => if stat_ge r x then r :: x :: xs else x :: insert_desc r xs

/-- The sort of line 175 (any comparison sort realizes `sort_values`; the
claims below concern only the ordering of the output). -/
def sort_values_desc : List StatRow → List StatRow
  | [] => []
  | x :: xs => insert_desc x (sort_values_desc xs)

/-- get_arxiv_stats, the arxiv_stats component: group keys in first-seen
order (the subsequent sort makes the intermediate groupby order
irrelevant), aggregated and sorted descending by the five counters. -/
def get_arxiv_stats (tweets_df : List TweetRow) (users_df : List String)
    (urls_df : List UrlRow) : List StatRow :=
  sort_values_desc
    ((get_unique_list ((arxiv_ids_group_rows tweets_df users_df urls_df).map fun r => r.1)).map
      (agg_row (arxiv_ids_group_rows tweets_df users_df urls_df)))

/-- Claim C4 (code evaluation): on line 170 the test `x[1] != 0` is True
for NaN (and for None and for every string), so the unwound_url is selected
whenever it is not the number 0 and the `else expanded_url` fallback is
unreachable for URL data; a row whose unwound_url is missing is therefore
dropped even though its expanded_url is a canonical arXiv URL.  The three
positive conjuncts show the pattern itself behaves as the claim describes
when the URL does reach it. -/
theorem C4_unwound_fallback_never_fires :
    arxiv_ids_df [⟨"1", PyVal.vStr "https://arxiv.org/abs/2301.01234", PyVal.vNaN⟩] = []
    ∧ arxiv_ids_df [⟨"1", PyVal.vNaN, PyVal.vStr "https://arxiv.org/abs/2301.01234"⟩]
        = [("1", "2301.01234")]
    ∧ arxiv_ids_df [⟨"1", PyVal.vNaN, PyVal.vStr "https://arxiv.org/pdf/2301.01234v2.pdf"⟩]
        = [("1", "2301.01234")]
    ∧ arxiv_ids_df [⟨"1", PyVal.vNaN, PyVal.vStr "https://arxiv.org/abs/abc"⟩] = [] := by
  refine ⟨rfl, rfl, rfl, rfl⟩

theorem lex5_le_iff (a1 a2 a3 a4 a5 b1 b2 b3 b4 b5 : Nat) :
    lex5_le (a1, a2, a3, a4, a5) (b1, b2, b3, b4, b5) = true ↔
      a1 < b1 ∨ a1 = b1 ∧ (a2 < b2 ∨ a2 = b2 ∧ (a3 < b3 ∨ a3 = b3 ∧
        (a4 < b4 ∨ a4 = b4 ∧ a5 ≤ b5))) := by
  simp only [lex5_le, ne_eq]
  split_ifs <;> simp only [decide_eq_true_eq] <;> omega

theorem lex5_le_total (p q : Nat × Nat × Nat × Nat × Nat) :
    lex5_le p q = true ∨ lex5_le q p = true := by
  obtain ⟨a1, a2, a3, a4, a5⟩ := p
  obtain ⟨b1, b2, b3, b4, b5⟩ := q
  rw [lex5_le_iff, lex5_le_iff]
  omega

theorem lex5_le_trans (p q r : Nat × Nat × Nat × Nat × Nat)
    (h1 : lex5_le p q = true) (h2 : lex5_le q r = true) : lex5_le p r = true := by
  obtain ⟨a1, a2, a3, a4, a5⟩ := p
  obtain ⟨b1, b2, b3, b4, b5⟩ := q
  obtain ⟨c1, c2, c3, c4, c5⟩ := r
  rw [lex5_le_iff] at h1 h2 ⊢
  omega

theorem stat_ge_total (a b : StatRow) : stat_ge a b = true ∨ stat_ge b a = true := by
  simp only [stat_ge]
  exact lex5_le_total (stat_key b) (stat_key a)

theorem stat_ge_trans (a b c : StatRow) (h1 : stat_ge a b = true)
    (h2 : stat_ge b c = true) : stat_ge a c = true :=
  lex5_le_trans (stat_key c) (stat_key b) (stat_key a) h2 h1

theorem mem_insert_desc (r y : StatRow) (l : List StatRow) (h : y ∈ insert_desc r l) :
    y = r ∨ y ∈ l := by
  induction l with
  | nil => simpa [insert_desc] using h
  | cons x xs ih =>
      by_cases hc : stat_ge r x = true
      · rw [insert_desc, if_pos hc] at h
        rcases List.mem_cons.mp h with h | h
        · exact Or.inl h
        · exact Or.inr h
      · rw [insert_desc, if_neg hc] at h
        rcases List.mem_cons.mp h with h | h
        · exact Or.inr (h ▸ List.mem_cons_self x xs)
        · rcases ih h with h | h
          · exact Or.inl h
          · exact Or.inr (List.mem_cons_of_mem x h)

theorem pairwise_insert_desc (r : StatRow) (l : List StatRow)
    (h : l.Pairwise fun a b => stat_ge a b = true) :
    (insert_desc r l).Pairwise fun a b => stat_ge a b = true := by
  induction l with
  | nil => simp [insert_desc]
  | cons x xs ih =>
      rcases List.pairwise_cons.mp h with ⟨hx, hxs⟩
      by_cases hc : stat_ge r x = true
      · rw [insert_desc, if_pos hc]
        refine List.pairwise_cons.mpr ⟨?_, h⟩
        intro y hy
        rcases List.mem_cons.mp hy with rfl | hy
        · exact hc
        · exact stat_ge_trans r x y hc (hx y hy)
      · rw [insert_desc, if_neg hc]
        refine List.pairwise_cons.mpr ⟨?_, ih hxs⟩
        intro y hy
        rcases mem_insert_desc r y xs hy with rfl | hy
        · rcases stat_ge_total y x with ht | ht
          · exact absurd ht hc
          · exact ht
        · exact hx y hy

theorem pairwise_sort_values_desc (l : List StatRow) :
    (sort_values_desc l).Pairwise fun a b => stat_ge a b = true := by
  induction l with
  | nil => exact List.Pairwise.nil
  | cons x xs ih => exact pairwise_insert_desc x (sort_values_desc xs) ih

/-- Claim C2: for every input, the aggregated stats table is sorted
descending under the five-key lexicographic order (like_count,
retweet_count, quote_count, reply_count, tweet_count): every earlier row
compares greater than or equal to every later row under the full key
chain, so rows tying on like_count are still fully ordered by the
secondary counters and the contribution count. -/
theorem C2_get_arxiv_stats_sorted (tweets_df : List TweetRow) (users_df : List String)
    (urls_df : List UrlRow) :
    (get_arxiv_stats tweets_df users_df urls_df).Pairwise
      fun a b => stat_ge a b = true :=
  pairwise_sort_values_desc _

theorem get_unique_list_loop_nodup {α : Type} [DecidableEq α] (l : List α) :
    ∀ seen : List α, (get_unique_list_loop seen l).Nodup
      ∧ ∀ x ∈ get_unique_list_loop seen l, x ∉ seen := by
  induction l with
  | nil =>
      intro seen
      exact ⟨List.Pairwise.nil, by simp [get_unique_list_loop]⟩
  | cons x xs ih =>
      intro seen
      by_cases hx : x ∈ seen
      · simp only [get_unique_list_loop, if_pos hx]
        exact ih seen
      · simp only [get_unique_list_loop, if_neg hx]
        constructor
        · refine List.nodup_cons.mpr ⟨?_, (ih (x :: seen)).1⟩
          intro hmem
          exact (ih (x :: seen)).2 x hmem (List.mem_cons_self _ _)
        · intro y hy
          rcases List.mem_cons.mp hy with rfl | hy
          · exact hx
          · intro hsy
            exact (ih (x :: seen)).2 y hy (List.mem_cons_of_mem _ hsy)

theorem get_unique_list_nodup {α : Type} [DecidableEq α] (l : List α) :
    (get_unique_list l).Nodup :=
  (get_unique_list_loop_nodup l []).1

theorem filter_eq_elem_length_le_one {α : Type} [DecidableEq α] (l : List α) (x : α)
    (h : l.Nodup) : (l.filter fun u => u = x).length ≤ 1 := by
  induction l with
  | nil => simp
  | cons a as ih =>
      rcases List.nodup_cons.mp h with ⟨ha, has⟩
      by_cases hax : a = x
      · subst hax
        rw [List.filter_cons_of_pos (by simp)]
        have hnil : (as.filter fun u => u = a) = [] := by
          rw [List.filter_eq_nil_iff]
          intro b hb hba
          exact ha ((of_decide_eq_true hba) ▸ hb)
        simp [hnil]
      · rw [List.filter_cons_of_neg (by simp [hax])]
        exact ih has

theorem tweets_users_mem (r : TweetRow) (tweets_df : List TweetRow)
    (users_df : List String) (h : r ∈ tweets_users_df tweets_df users_df) :
    r ∈ tweets_df := by
  rcases List.mem_flatMap.mp h with ⟨t, ht, hr⟩
  rcases List.mem_map.mp hr with ⟨u, _, hequ⟩
  exact hequ ▸ ht

theorem tweets_users_filter_id_le_one (tweets_df : List TweetRow) (users_df : List String)
    (htw : (tweets_df.map TweetRow.id).Nodup) (hus : users_df.Nodup) (tid : String) :
    ((tweets_users_df tweets_df users_df).filter fun t => t.id = tid).length ≤ 1 := by
  induction tweets_df with
  | nil => simp [tweets_users_df]
  | cons t ts ih =>
      rw [List.map_cons] at htw
      rcases List.nodup_cons.mp htw with ⟨hid, hids⟩
      rw [tweets_users_df, List.flatMap_cons, List.filter_append, List.length_append]
      by_cases hti : t.id = tid
      · have h2 : ((tweets_users_df ts users_df).filter fun t => t.id = tid) = [] := by
          rw [List.filter_eq_nil_iff]
          intro r hr hcond
          have hrts : r ∈ ts := tweets_users_mem r ts users_df hr
          have : r.id ∈ ts.map TweetRow.id := List.mem_map.mpr ⟨r, hrts, rfl⟩
          rw [of_decide_eq_true hcond, ← hti] at this
          exact hid this
        rw [tweets_users_df] at h2
        rw [h2]
        have h1 : (((users_df.filter fun u => u = t.author_id).map fun _ => t).filter
            fun x => x.id = tid).length ≤ 1 := by
          calc (((users_df.filter fun u => u = t.author_id).map fun _ => t).filter
              fun x => x.id = tid).length
              ≤ ((users_df.filter fun u => u = t.author_id).map fun _ => t).length :=
                List.length_filter_le _ _
            _ = (users_df.filter fun u => u = t.author_id).length := List.length_map _ _
            _ ≤ 1 := filter_eq_elem_length_le_one users_df t.author_id hus
        simpa using h1
      · have h1 : (((users_df.filter fun u => u = t.author_id).map fun _ => t).filter
            fun x => x.id = tid) = [] := by
          rw [List.filter_eq_nil_iff]
          intro r hr hcond
          rcases List.mem_map.mp hr with ⟨u, _, hequ⟩
          rw [← hequ] at hcond
          exact hti (of_decide_eq_true hcond)
        rw [h1]
        simp only [List.length_nil, Nat.zero_add]
        exact ih hids

theorem piece_filter_eq_nil (q : String × String) (tweets_df : List TweetRow)
    (users_df : List String) (a tid : String) (hq : q ≠ (tid, a)) :
    ((((tweets_users_df tweets_df users_df).filter fun t => t.id = q.1).map
        fun t => (q.2, t)).filter fun r => r.1 = a ∧ r.2.id = tid) = [] := by
  obtain ⟨q1, q2⟩ := q
  rw [List.filter_eq_nil_iff]
  intro r hr hcond
  rcases List.mem_map.mp hr with ⟨t, ht, hequ⟩
  have htid : t.id = q1 := of_decide_eq_true (List.mem_filter.mp ht).2
  rw [← hequ] at hcond
  simp only [decide_eq_true_eq] at hcond
  obtain ⟨h1, h2⟩ := hcond
  exact hq (by simp [h1, ← h2, htid])

theorem flat_rows_filter_le_one (ps : List (String × String)) (tweets_df : List TweetRow)
    (users_df : List String) (a tid : String)
    (htw : (tweets_df.map TweetRow.id).Nodup) (hus : users_df.Nodup)
    (hnodup : ps.Nodup) :
    ((ps.flatMap fun p => ((tweets_users_df tweets_df users_df).filter
        fun t => t.id = p.1).map fun t => (p.2, t)).filter
      fun r => r.1 = a ∧ r.2.id = tid).length ≤ 1 := by
  induction ps with
  | nil => simp
  | cons p ps ih =>
      rcases List.nodup_cons.mp hnodup with ⟨hp, hps⟩
      rw [List.flatMap_cons, List.filter_append, List.length_append]
      by_cases hpe : p = (tid, a)
      · have h2 : ((ps.flatMap fun p => ((tweets_users_df tweets_df users_df).filter
              fun t => t.id = p.1).map fun t => (p.2, t)).filter
            fun r => r.1 = a ∧ r.2.id = tid) = [] := by
          rw [List.filter_eq_nil_iff]
          intro r hr hcond
          rcases List.mem_flatMap.mp hr with ⟨q, hq, hrq⟩
          have hqne : q ≠ (tid, a) := by
            intro hqe
            exact hp (by rw [hpe, ← hqe]; exact hq)
          have := piece_filter_eq_nil q tweets_df users_df a tid hqne
          rw [List.filter_eq_nil_iff] at this
          exact this r hrq hcond
        rw [h2]
        have h1 : ((((tweets_users_df tweets_df users_df).filter fun t => t.id = p.1).map
            fun t => (p.2, t)).filter fun r => r.1 = a ∧ r.2.id = tid).length ≤ 1 := by
          calc ((((tweets_users_df tweets_df users_df).filter fun t => t.id = p.1).map
              fun t => (p.2, t)).filter fun r => r.1 = a ∧ r.2.id = tid).length
              ≤ (((tweets_users_df tweets_df users_df).filter fun t => t.id = p.1).map
                  fun t => (p.2, t)).length := List.length_filter_le _ _
            _ = ((tweets_users_df tweets_df users_df).filter fun t => t.id = p.1).length :=
                List.length_map _ _
            _ ≤ 1 := by
                rw [hpe]
                exact tweets_users_filter_id_le_one tweets_df users_df htw hus tid
        simpa using h1
      · rw [piece_filter_eq_nil p tweets_df users_df a tid hpe]
        simpa using ih hps

/-- Claim C7: the extracted (tweet id, arxiv id) pairs are deduplicated
before grouping — the pair table contains no duplicate pairs — and
consequently, when the tweets table has unique ids and the users table is
deduplicated, each tweet contributes at most one row to any arXiv id's
group, so every counter sum and the contributing-tweet count include each
tweet at most once per distinct reference. -/
theorem C7_pairs_deduplicated (tweets_df : List TweetRow) (users_df : List String)
    (urls_df : List UrlRow)
    (htw : (tweets_df.map TweetRow.id).Nodup) (hus : users_df.Nodup) :
    (arxiv_ids_df urls_df).Nodup
    ∧ ∀ tid a : String,
        ((arxiv_ids_group_rows tweets_df users_df urls_df).filter
          fun r => r.1 = a ∧ r.2.id = tid).length ≤ 1 := by
  constructor
  · exact get_unique_list_nodup _
  · intro tid a
    exact flat_rows_filter_le_one (arxiv_ids_df urls_df) tweets_df users_df a tid htw hus
      (get_unique_list_nodup _)

/-- Witness for C7: one tweet with two URL rows resolving to the same
arXiv id. -/
theorem C7_pairs_deduplicated_witness :
    (arxiv_ids_df
        [⟨"t1", PyVal.vNaN, PyVal.vStr "https://arxiv.org/abs/2301.01234"⟩,
         ⟨"t1", PyVal.vNaN, PyVal.vStr "https://arxiv.org/pdf/2301.01234v2.pdf"⟩]).Nodup
    ∧ ∀ tid a : String,
        ((arxiv_ids_group_rows [⟨"t1", "u1", 5, 1, 0, 0⟩] ["u1"]
            [⟨"t1", PyVal.vNaN, PyVal.vStr "https://arxiv.org/abs/2301.01234"⟩,
             ⟨"t1", PyVal.vNaN, PyVal.vStr "https://arxiv.org/pdf/2301.01234v2.pdf"⟩]).filter
          fun r => r.1 = a ∧ r.2.id = tid).length ≤ 1 :=
  C7_pairs_deduplicated [⟨"t1", "u1", 5, 1, 0, 0⟩] ["u1"]
    [⟨"t1", PyVal.vNaN, PyVal.vStr "https://arxiv.org/abs/2301.01234"⟩,
     ⟨"t1", PyVal.vNaN, PyVal.vStr "https://arxiv.org/pdf/2301.01234v2.pdf"⟩]
    (by decide) (by decide)

/-! ## arxiv_result_to_dict (src/docker/main.py lines 181-203)

The function matches the result's entry_id against ARXIV_URL_PATTERN.  When
there is no match, `arxiv_id` is None and the assert on line 184 raises
AssertionError.  When there is a match but the optional version group is
None, line 185 evaluates `m.group(2) + m.group(3)` with a None operand and
raises TypeError before its assert is reached.  Only a match with a version
suffix produces the dict. -/

/-- Fields of an arxiv.Result consumed by arxiv_result_to_dict.  Nullable
fields are Options. -/
structure ArxivResult where
  entry_id : String
  updated : String
  published : String
  title : String
  authors : List String
  summary : String
  comment : Option String
  journal_ref : Option String
  doi : Option String
  primary_category : String
  categories : List String
  links : List String
  pdf_url : String
deriving DecidableEq

/-- The dict built on lines 187-203. -/
structure ArxivDict where
  arxiv_id : String
  arxiv_id_v : String
  entry_id : String
  updated : String
  published : String
  title : String
  authors : List String
  summary : String
  comment : Option String
  journal_ref : Option String
  doi : Option String
  primary_category : String
  categories : List String
  links : List String
  pdf_url : String
deriving DecidableEq

/-- Python exceptions arxiv_result_to_dict can raise. -/
inductive PyErr where
  | assertionError : PyErr
  | typeError : PyErr
deriving DecidableEq

/-- arxiv_result_to_dict. -/
def arxiv_result_to_dict (r : ArxivResult) : Except PyErr ArxivDict :=
  match arxiv_url_match r.entry_id with
  | none => Except.error PyErr.assertionError
  | some m =>
      match m.g3 with
      | none => Except.error PyErr.typeError
      | some v =>
          Except.ok
            { arxiv_id := m.g2
              arxiv_id_v := m.g2 ++ v
              entry_id := r.entry_id
              updated := r.updated
              published := r.published
              title := r.title
              authors := r.authors
              summary := r.summary
              comment := r.comment
              journal_ref := r.journal_ref
              doi := r.doi
              primary_category := r.primary_category
              categories := r.categories
              links := r.links
              pdf_url := r.pdf_url }

/-- Claim C9: arxiv_result_to_dict returns a record exactly when the
entry_id matches ARXIV_URL_PATTERN with an explicit version suffix; in
every other case — no match, or a match without the version group — it
raises instead of returning. -/
theorem C9_arxiv_result_to_dict_requires_version (r : ArxivResult) :
    (∃ d, arxiv_result_to_dict r = Except.ok d)
      ↔ ∃ m, arxiv_url_match r.entry_id = some m ∧ m.g3.isSome := by
  constructor
  · rintro ⟨d, hd⟩
    cases hm : arxiv_url_match r.entry_id with
    | none =>
        rw [arxiv_result_to_dict, hm] at hd
        exact absurd hd (by simp)
    | some m =>
        cases hg : m.g3 with
        | none =>
            rw [arxiv_result_to_dict, hm] at hd
            simp only [hg] at hd
            exact absurd hd (by simp)
        | some v => exact ⟨m, rfl, by rw [hg]; rfl⟩
  · rintro ⟨m, hm, hg⟩
    rcases Option.isSome_iff_exists.mp hg with ⟨v, hv⟩
    have hok : arxiv_result_to_dict r = Except.ok
        { arxiv_id := m.g2
          arxiv_id_v := m.g2 ++ v
          entry_id := r.entry_id
          updated := r.updated
          published := r.published
          title := r.title
          authors := r.authors
          summary := r.summary
          comment := r.comment
          journal_ref := r.journal_ref
          doi := r.doi
          primary_category := r.primary_category
          categories := r.categories
          links := r.links
          pdf_url := r.pdf_url } := by
      rw [arxiv_result_to_dict, hm]
      simp [hv]
    exact ⟨_, hok⟩

/-! ## Tweet width and truncation (src/docker/main.py lines 319-335)

get_char_width counts a character as 2 when its Unicode East Asian Width
category (one of F, H, W, Na, A, N) is a substring of 'FWA' — that is, for
the Fullwidth, Wide and Ambiguous categories — and as 1 otherwise.
strip_tweet truncates a string so that the kept prefix fits in
`max_length - len(dots)` width columns, appending `dots` on truncation.
Note the budget subtracts the character count of `dots` while the suffix
contributes its display width. -/

/-- Model of `unicodedata.east_asian_width` (Python standard library, not
repository code), restricted to the ranges this development evaluates:
ASCII is narrow (Na), U+2026 HORIZONTAL ELLIPSIS is Ambiguous (A), the
Hiragana/Katakana and CJK Unified Ideograph blocks are Wide (W); every
other character is mapped to Neutral (N).  The theorems below measure
widths only through this function, on both sides. -/
def east_asian_width (c : Char) : String :=
  if c.toNat < 0x80 then "Na"
  else if c.toNat = 0x2026 then "A"
  else if 0x3040 ≤ c.toNat ∧ c.toNat ≤ 0x30FF then "W"
  else if 0x4E00 ≤ c.toNat ∧ c.toNat ≤ 0x9FFF then "W"
  else "N"

/-- Python substring test `s in 'FWA'` on a category string. -/
def in_FWA (s : String) : Bool :=
  decide (s ∈ ["", "F", "W", "A", "FW", "WA", "FWA"])

/-- get_char_width: 2 for the F, W and A categories, else 1. -/
def get_char_width (c : Char) : Nat :=
  if in_FWA (east_asian_width c) then 2 else 1

/-- Display width of a character list. -/
def width_chars (cs : List Char) : Nat := (cs.map get_char_width).sum

/-- len_tweet: display width of a string. -/
def len_tweet (text : String) : Nat := width_chars text.toList

/-- Loop of strip_tweet: `cs` is the remaining input, `buf` the reversed
kept prefix, `count` its width so far.  On overflow it returns
`''.join(buf) + (dots if dots else '')`; if the input runs out, the
original text. -/
def strip_tweet_loop (text : String) (length : Int) (dots : String) :
    List Char → List Char → Int → String
  | [], _, _ => text
  | c :: cs, buf, count =>
      if count + (get_char_width c : Int) > length then String.mk buf.reverse ++ dots
      else strip_tweet_loop text length dots cs (c :: buf) (count + (get_char_width c : Int))

/-- strip_tweet.  In the source max_length defaults to 280 and dots to
'...'; `length = max_length - (len(dots) if dots else 0)` may be negative
in Python, hence the Int budget. -/
def strip_tweet (text : String) (max_length : Int) (dots : String) : String :=
  strip_tweet_loop text (max_length - (if dots.isEmpty then 0 else (dots.length : Int)))
    dots text.toList [] 0

theorem len_tweet_string_mk (l : List Char) : len_tweet (String.mk l) = width_chars l := rfl

theorem len_tweet_append (a b : String) :
    len_tweet (a ++ b) = len_tweet a + len_tweet b := by
  simp [len_tweet, width_chars, String.toList, String.data_append]

theorem width_chars_reverse (l : List Char) : width_chars l.reverse = width_chars l := by
  simp [width_chars, List.sum_reverse]

theorem width_chars_cons (c : Char) (l : List Char) :
    width_chars (c :: l) = get_char_width c + width_chars l := by
  simp [width_chars]

theorem strip_tweet_loop_width_le (text : String) (length : Int) (dots : String) :
    ∀ (cs buf : List Char) (count : Int),
      count = (width_chars buf : Int) → count ≤ length →
      buf.reverse ++ cs = text.toList →
      (len_tweet (strip_tweet_loop text length dots cs buf count) : Int)
        ≤ length + len_tweet dots := by
  intro cs
  induction cs with
  | nil =>
      intro buf count hcount hle hinv
      rw [strip_tweet_loop]
      have htext : (len_tweet text : Int) = count := by
        rw [len_tweet, ← hinv, List.append_nil, width_chars_reverse, hcount]
      have hdots : (0 : Int) ≤ (len_tweet dots : Int) := Int.natCast_nonneg _
      omega
  | cons c cs ih =>
      intro buf count hcount hle hinv
      rw [strip_tweet_loop]
      by_cases hov : count + (get_char_width c : Int) > length
      · rw [if_pos hov, len_tweet_append, len_tweet_string_mk, width_chars_reverse]
        omega
      · rw [if_neg hov]
        refine ih (c :: buf) (count + (get_char_width c : Int)) ?_ (by omega) ?_
        · rw [width_chars_cons, hcount]
          push_cast
          ring
        · rw [List.reverse_cons, List.append_assoc]
          simpa using hinv

theorem strip_tweet_loop_id (text : String) (length : Int) (dots : String) :
    ∀ (cs buf : List Char) (count : Int),
      count + (width_chars cs : Int) ≤ length →
      strip_tweet_loop text length dots cs buf count = text := by
  intro cs
  induction cs with
  | nil => intro buf count _; rfl
  | cons c cs ih =>
      intro buf count hfit
      rw [width_chars_cons] at hfit
      push_cast at hfit
      rw [strip_tweet_loop, if_neg (by omega)]
      exact ih (c :: buf) _ (by omega)

/-- Claim C10 counterexample: with dots = HORIZONTAL ELLIPSIS (East Asian
Width category A, display width 2, character length 1) and max_length = 2,
the hypothesis of the claim holds — max_length is at least the display
width of the dots — yet the output of strip_tweet has display width 3. -/
theorem C10_width_can_exceed_max_length :
    (len_tweet "…" : Int) ≤ 2 ∧ ¬ ((len_tweet (strip_tweet "ab" 2 "…") : Int) ≤ 2) := by
  decide

/-- Claim C10 as amended: for max_length at least the character length of
dots, the display width of strip_tweet text max_length dots is at most
max_length - dots.length + len_tweet dots (the overrun being exactly the
excess of the suffix's display width over its character length, so the
bound is max_length itself whenever every dots character is narrow, e.g.
for the default '...'); and whenever the display width of text is at most
max_length - dots.length, the text is returned unchanged. -/
theorem C10_strip_tweet_width_bound (text : String) (max_length : Int) (dots : String)
    (h : (dots.length : Int) ≤ max_length) :
    (len_tweet (strip_tweet text max_length dots) : Int)
        ≤ max_length - dots.length + len_tweet dots
    ∧ ((len_tweet dots : Int) = (dots.length : Int) →
        (len_tweet (strip_tweet text max_length dots) : Int) ≤ max_length)
    ∧ ((len_tweet text : Int) ≤ max_length - dots.length →
        strip_tweet text max_length dots = text) := by
  have hlen : max_length - (if dots.isEmpty then 0 else (dots.length : Int))
      = max_length - dots.length := by
    by_cases hd : dots.isEmpty
    · have : dots.length = 0 := by
        rw [String.isEmpty_iff] at hd
        simp [hd]
      rw [if_pos hd, this]
      simp
    · rw [if_neg hd]
  refine ⟨?_, ?_, ?_⟩
  · have hb := strip_tweet_loop_width_le text
      (max_length - (if dots.isEmpty then 0 else (dots.length : Int))) dots
      text.toList [] 0 (by simp [width_chars]) (by rw [hlen]; omega) (by simp)
    rw [strip_tweet]
    rw [hlen] at hb ⊢
    omega
  · intro hnarrow
    have hb := strip_tweet_loop_width_le text
      (max_length - (if dots.isEmpty then 0 else (dots.length : Int))) dots
      text.toList [] 0 (by simp [width_chars]) (by rw [hlen]; omega) (by simp)
    rw [strip_tweet]
    rw [hlen] at hb ⊢
    omega
  · intro hfit
    rw [strip_tweet]
    exact strip_tweet_loop_id text _ dots text.toList [] 0 (by rw [hlen]; exact by simpa [len_tweet] using hfit)

/-- Witness for the amended C10 at concrete inputs. -/
theorem C10_strip_tweet_width_bound_witness :
    ((len_tweet (strip_tweet "hello world" 7 "...") : Int) ≤ 7 - ("..." : String).length + len_tweet "..."
    ∧ ((len_tweet "..." : Int) = (("..." : String).length : Int) →
        (len_tweet (strip_tweet "hello world" 7 "...") : Int) ≤ 7)
    ∧ ((len_tweet "hello world" : Int) ≤ 7 - ("..." : String).length →
        strip_tweet "hello world" 7 "..." = "hello world")) :=
  C10_strip_tweet_width_bound "hello world" 7 "..." (by decide)
